import Mathlib

/-!
Formal model of a small Web Audio tone generator: the voice class
GenSynthNote (file src/GenSynthNote.js) and the page script that drives it
(random pitch selection, an interval looper, and envelope sliders).

Times and control values are modelled as rationals so that every computation
is exact and decidable.  An AudioParam is modelled as its list of scheduled
automation events together with its initial value; the semantics of the three
automation methods the source uses (setValueAtTime, linearRampToValueAtTime,
cancelScheduledValues) and of the computed value follow the Web Audio
specification: events are kept ordered by time, cancelScheduledValues removes
every event whose time is at or after the cancel instant, a held value lasts
until the next event, and a linear ramp interpolates from the previous
event's value and time to its own target.  The MIDI-to-frequency conversion
mtof is irrational-valued and is therefore modelled separately over the reals;
the rational voice model takes the computed frequency as an argument.
-/

/-- One scheduled automation event on an AudioParam timeline: either a
setValueAtTime point or a linearRampToValueAtTime target. -/
inductive AutomationEvent
  | setValue (v : ℚ) (t : ℚ)
  | linearRamp (v : ℚ) (t : ℚ)
deriving DecidableEq

/-- The instant an automation event is anchored at. -/
def AutomationEvent.time : AutomationEvent → ℚ
  | .setValue _ t => t
  | .linearRamp _ t => t

/-- The value an automation event carries. -/
def AutomationEvent.target : AutomationEvent → ℚ
  | .setValue v _ => v
  | .linearRamp v _ => v

/-- Whether the event is a linear ramp. -/
def AutomationEvent.isRamp : AutomationEvent → Bool
  | .setValue _ _ => false
  | .linearRamp _ _ => true

/-- Value of a linear ramp that starts from value v0 at time t0 and reaches
v1 at time t1, sampled at time tau (used for t0 <= tau < t1).  A degenerate
ramp whose endpoints do not satisfy t0 < t1 jumps straight to its target. -/
def rampValue (v0 t0 v1 t1 tau : ℚ) : ℚ :=
  if t0 < t1 then v0 + (v1 - v0) * (tau - t0) / (t1 - t0) else v1

/-- Computed value of an automation timeline at time tau, given that the most
recent earlier event carried value v0 at time t0 (initially the param's
initial value at time 0).  A setValue event holds its value from its time on;
a linearRamp event interpolates from the previous event up to its time. -/
def computedValue (v0 t0 : ℚ) : List AutomationEvent → ℚ → ℚ
  | [], _ => v0
  | .setValue v t :: rest, tau =>
      if tau < t then v0 else computedValue v t rest tau
  | .linearRamp v t :: rest, tau =>
      if tau < t then rampValue v0 t0 v t tau else computedValue v t rest tau

/-- Insert an event into a time-ordered event list, after any existing events
with the same time (Web Audio keeps events sorted by time, insertion order
breaking ties). -/
def insertEvent : List AutomationEvent → AutomationEvent → List AutomationEvent
  | [], e => [e]
  | x :: xs, e => if e.time < x.time then e :: x :: xs else x :: insertEvent xs e

/-- An AudioParam: its initial (construction-time) value and its scheduled
automation events. -/
structure AudioParam where
  initial : ℚ
  events : List AutomationEvent
deriving DecidableEq

/-- The computed value of the param at time tau. -/
def AudioParam.value (p : AudioParam) (tau : ℚ) : ℚ :=
  computedValue p.initial 0 p.events tau

/-- cancelScheduledValues(t): remove every event whose time is at or after t. -/
def AudioParam.cancelScheduledValues (p : AudioParam) (t : ℚ) : AudioParam :=
  { p with events := p.events.filter fun e => decide (e.time < t) }

/-- setValueAtTime(v, t). -/
def AudioParam.setValueAtTime (p : AudioParam) (v t : ℚ) : AudioParam :=
  { p with events := insertEvent p.events (AutomationEvent.setValue v t) }

/-- linearRampToValueAtTime(v, t). -/
def AudioParam.linearRampToValueAtTime (p : AudioParam) (v t : ℚ) : AudioParam :=
  { p with events := insertEvent p.events (AutomationEvent.linearRamp v t) }

/-- The oscillator source node: its frequency, its scheduled stop instant (if
stop has been called) and how many stop commands have been issued on it.  Per
the Web Audio specification a later stop call replaces the scheduled stop
time. -/
structure OscillatorNode where
  frequency : ℚ
  stopTime : Option ℚ
  stopCalls : Nat
deriving DecidableEq

/-- osc.stop(t): schedule (or reschedule) the stop instant. -/
def OscillatorNode.stop (o : OscillatorNode) (t : ℚ) : OscillatorNode :=
  { o with stopTime := some t, stopCalls := o.stopCalls + 1 }

/-- mtof from GenSynthNote.js: f = 440 * 2 ^ ((mn - 69) / 12), stated over the
reals since the result is irrational for most pitches. -/
noncomputable def mtof (mn : ℝ) : ℝ :=
  440 * (2 : ℝ) ^ ((mn - 69) / 12)

/-- One GenSynthNote voice (src/GenSynthNote.js).  The adsr field is the gain
AudioParam of the amplitude GainNode, lpFilter the frequency AudioParam of the
low-pass BiquadFilterNode. -/
structure GenSynthNote where
  freq : ℚ
  attack : ℚ
  decay : ℚ
  sustain : ℚ
  release : ℚ
  maxGain : ℚ
  osc : OscillatorNode
  adsr : AudioParam
  lpFilter : AudioParam
deriving DecidableEq

/-- The GenSynthNote constructor.  In the source the frequency is computed
once as this.freq = this.mtof(midiNote); that value is irrational, so the
rational model receives the computed frequency as its first argument (the
frequency law itself is stated over the reals via mtof).  The gain param
starts at 0 (silent until start()), the filter cutoff at 8 times the
fundamental, and maxGain is the fixed constant 0.25 independent of every
constructor argument. -/
def mkNote (freqHz att dec sus rel : ℚ) : GenSynthNote :=
  { freq := freqHz
    attack := att
    decay := dec
    sustain := sus
    release := rel
    maxGain := 1 / 4
    osc := { frequency := freqHz, stopTime := none, stopCalls := 0 }
    adsr := { initial := 0, events := [] }
    lpFilter := { initial := freqHz * 8, events := [] } }

/-- resetEnvelopes(t): on each of the two params, cancel the scheduled
automation from t on and then pin the param at its current computed value.
Note the source reads this.adsr.gain.value after the cancelScheduledValues
call, so the pinned value is the post-cancellation computed value. -/
def GenSynthNote.resetEnvelopes (n : GenSynthNote) (t : ℚ) : GenSynthNote :=
  let g1 := n.adsr.cancelScheduledValues t
  let f1 := n.lpFilter.cancelScheduledValues t
  { n with
    adsr := g1.setValueAtTime (g1.value t) t
    lpFilter := f1.setValueAtTime (f1.value t) t }

/-- start(): anchor both envelopes at the call instant now, then schedule the
attack ramp to maxGain at now + attack, the decay ramp to maxGain * sustain at
now + attack + decay, and the filter sweep to freq * 2 at now + attack +
decay.  The call instant (ctx.currentTime in the source) is passed in. -/
def GenSynthNote.start (n : GenSynthNote) (now : ℚ) : GenSynthNote :=
  let n1 := n.resetEnvelopes now
  { n1 with
    adsr :=
      (n1.adsr.linearRampToValueAtTime n1.maxGain (now + n1.attack)).linearRampToValueAtTime
        (n1.maxGain * n1.sustain) (now + n1.attack + n1.decay)
    lpFilter :=
      n1.lpFilter.linearRampToValueAtTime (n1.freq * 2) (now + n1.attack + n1.decay) }

/-- stop(): anchor both envelopes at the call instant now, schedule the
release ramp to 0 at now + release, and stop the oscillator at now + release.
The osc.stop call is issued unconditionally. -/
def GenSynthNote.stop (n : GenSynthNote) (now : ℚ) : GenSynthNote :=
  let n1 := n.resetEnvelopes now
  { n1 with
    adsr := n1.adsr.linearRampToValueAtTime 0 (now + n1.release)
    osc := n1.osc.stop (now + n1.release) }

/-! The page script (the unnamed source file): global timing and envelope
settings, the MIDI note pool, the playback function and the looping engine. -/

/-- Length of one loop in milliseconds. -/
def loopTime : ℚ := 125

/-- The pool of MIDI pitches the playback function draws from. -/
def midiNotes : List Int :=
  [36, 48, 55, 58, 60, 62, 63, 65, 67, 69, 70, 72, 75, 79, 82]

/-- The index computed by the playback function from one draw r of
Math.random(): floor(r * midiNotes.length). -/
def pickIndex (r : ℚ) : Nat :=
  (⌊r * (midiNotes.length : ℚ)⌋).toNat

/-- The mutable page state: the four shared envelope globals, the looper
interval handle, the set of live interval timers, a fresh-id counter for
setInterval, and the voices created so far (each already started). -/
structure LabState where
  attack : ℚ
  decay : ℚ
  sustain : ℚ
  release : ℚ
  looper : Option Nat
  timers : List Nat
  nextTimerId : Nat
  voices : List GenSynthNote
deriving DecidableEq

/-- The initial values of the globals at script load. -/
def initState : LabState :=
  { attack := 1 / 100
    decay := 1 / 10
    sustain := 1 / 4
    release := 9 / 10
    looper := none
    timers := []
    nextTimerId := 0
    voices := [] }

/-- The attack slider handler: attack = Number(e.target.value). -/
def attTimeInput (s : LabState) (x : ℚ) : LabState := { s with attack := x }

/-- The decay slider handler. -/
def decTimeInput (s : LabState) (x : ℚ) : LabState := { s with decay := x }

/-- The sustain slider handler. -/
def susAmpInput (s : LabState) (x : ℚ) : LabState := { s with sustain := x }

/-- The release slider handler. -/
def relTimeInput (s : LabState) (x : ℚ) : LabState := { s with release := x }

/-- The note built by playANote from the current globals and one random draw
r: new GenSynthNote(ctx, dest, midiNotes[floor(r * length)], attack, decay,
sustain, release).  f2q supplies the rational stand-in for the irrational
frequency mtof computes from the selected pitch; no scheduler property
depends on its values. -/
def newNote (f2q : Int → ℚ) (s : LabState) (r : ℚ) : GenSynthNote :=
  mkNote (f2q (midiNotes.getD (pickIndex r) 0)) s.attack s.decay s.sustain s.release

/-- playANote: build a note from the current globals, start it immediately,
and keep it among the live voices.  (The source also schedules a one-shot
note.stop() callback loopTime milliseconds later; that delayed call is the
stop() modelled on GenSynthNote.) -/
def playANote (f2q : Int → ℚ) (s : LabState) (r : ℚ) (now : ℚ) : LabState :=
  { s with voices := (newNote f2q s r).start now :: s.voices }

/-- The start button handler: if a looper interval exists, clear it, then
register a fresh interval and remember its handle. -/
def startClick (s : LabState) : LabState :=
  let s1 := match s.looper with
    | some i => { s with timers := s.timers.erase i }
    | none => s
  { s1 with
    looper := some s1.nextTimerId
    timers := s1.nextTimerId :: s1.timers
    nextTimerId := s1.nextTimerId + 1 }

/-- The stop button handler: clear the looper interval (clearInterval(null)
is a no-op) and null the handle.  Nothing else in the state is touched. -/
def stopClick (s : LabState) : LabState :=
  { s with
    timers := match s.looper with
      | some i => s.timers.erase i
      | none => s.timers
    looper := none }

/-- The timer-bookkeeping invariant: the live interval timers are exactly the
one the looper handle names (none when the handle is null). -/
def labInv (s : LabState) : Prop :=
  s.timers = match s.looper with
    | some i => [i]
    | none => []

/-! Helper lemmas about the automation timeline. -/

theorem time_lt_of_mem_filter {l : List AutomationEvent} {t : ℚ} {x : AutomationEvent}
    (hx : x ∈ l.filter fun e => decide (e.time < t)) : x.time < t := by
  have h := List.of_mem_filter hx
  exact of_decide_eq_true h

theorem insertEvent_append (l : List AutomationEvent) (e : AutomationEvent)
    (h : ∀ x ∈ l, x.time ≤ e.time) : insertEvent l e = l ++ [e] := by
  induction l with
  | nil => rfl
  | cons x xs ih =>
    have hx : ¬ e.time < x.time := not_lt.mpr (h x (List.mem_cons_self x xs))
    simp only [insertEvent, if_neg hx, List.cons_append]
    exact congrArg (x :: ·) (ih fun y hy => h y (List.mem_cons_of_mem x hy))

/-- Evaluating a timeline that starts with events at or before the sample
instant and then a setValueAtTime anchor: the anchor resets the evaluation
state, so everything before it is irrelevant. -/
theorem computedValue_append (l rest : List AutomationEvent) (v0 t0 w t tau : ℚ)
    (hl : ∀ x ∈ l, x.time ≤ tau) (ht : t ≤ tau) :
    computedValue v0 t0 (l ++ AutomationEvent.setValue w t :: rest) tau
      = computedValue w t rest tau := by
  induction l generalizing v0 t0 with
  | nil => simp only [List.nil_append, computedValue, if_neg (not_lt.mpr ht)]
  | cons x xs ih =>
    cases x with
    | setValue v t1 =>
      have h1 : ¬ tau < t1 := not_lt.mpr (hl _ (List.mem_cons_self _ _))
      simp only [List.cons_append, computedValue, if_neg h1]
      exact ih v t1 fun y hy => hl y (List.mem_cons_of_mem _ hy)
    | linearRamp v t1 =>
      have h1 : ¬ tau < t1 := not_lt.mpr (hl _ (List.mem_cons_self _ _))
      simp only [List.cons_append, computedValue, if_neg h1]
      exact ih v t1 fun y hy => hl y (List.mem_cons_of_mem _ hy)

theorem resetEnvelopes_adsr_events (n : GenSynthNote) (t : ℚ) :
    (n.resetEnvelopes t).adsr.events =
      (n.adsr.events.filter fun e => decide (e.time < t))
        ++ [AutomationEvent.setValue ((n.adsr.cancelScheduledValues t).value t) t] := by
  show insertEvent (n.adsr.events.filter fun e => decide (e.time < t))
      (AutomationEvent.setValue ((n.adsr.cancelScheduledValues t).value t) t) = _
  exact insertEvent_append _ _ fun x hx => le_of_lt (time_lt_of_mem_filter hx)

theorem resetEnvelopes_lpFilter_events (n : GenSynthNote) (t : ℚ) :
    (n.resetEnvelopes t).lpFilter.events =
      (n.lpFilter.events.filter fun e => decide (e.time < t))
        ++ [AutomationEvent.setValue ((n.lpFilter.cancelScheduledValues t).value t) t] := by
  show insertEvent (n.lpFilter.events.filter fun e => decide (e.time < t))
      (AutomationEvent.setValue ((n.lpFilter.cancelScheduledValues t).value t) t) = _
  exact insertEvent_append _ _ fun x hx => le_of_lt (time_lt_of_mem_filter hx)

theorem start_adsr_events (n : GenSynthNote) (now : ℚ)
    (ha : 0 ≤ n.attack) (hd : 0 ≤ n.decay) :
    (n.start now).adsr.events =
      (n.adsr.events.filter fun e => decide (e.time < now))
        ++ [AutomationEvent.setValue ((n.adsr.cancelScheduledValues now).value now) now,
            AutomationEvent.linearRamp n.maxGain (now + n.attack),
            AutomationEvent.linearRamp (n.maxGain * n.sustain) (now + n.attack + n.decay)] := by
  have hnow1 : now ≤ now + n.attack := le_add_of_nonneg_right ha
  have hnow2 : now ≤ now + n.attack + n.decay := by
    have h := add_nonneg ha hd
    calc now ≤ now + (n.attack + n.decay) := le_add_of_nonneg_right h
      _ = now + n.attack + n.decay := by ring
  have hstep : now + n.attack ≤ now + n.attack + n.decay := le_add_of_nonneg_right hd
  have e1 := resetEnvelopes_adsr_events n now
  have e2 : insertEvent ((n.adsr.events.filter fun e => decide (e.time < now))
        ++ [AutomationEvent.setValue ((n.adsr.cancelScheduledValues now).value now) now])
        (AutomationEvent.linearRamp n.maxGain (now + n.attack)) =
      ((n.adsr.events.filter fun e => decide (e.time < now))
        ++ [AutomationEvent.setValue ((n.adsr.cancelScheduledValues now).value now) now])
        ++ [AutomationEvent.linearRamp n.maxGain (now + n.attack)] := by
    refine insertEvent_append _ _ ?_
    intro x hx
    rcases List.mem_append.mp hx with h | h
    · exact le_trans (le_of_lt (time_lt_of_mem_filter h)) hnow1
    · rcases List.mem_singleton.mp h with rfl
      exact hnow1
  have e3 : insertEvent (((n.adsr.events.filter fun e => decide (e.time < now))
        ++ [AutomationEvent.setValue ((n.adsr.cancelScheduledValues now).value now) now])
        ++ [AutomationEvent.linearRamp n.maxGain (now + n.attack)])
        (AutomationEvent.linearRamp (n.maxGain * n.sustain) (now + n.attack + n.decay)) =
      (((n.adsr.events.filter fun e => decide (e.time < now))
        ++ [AutomationEvent.setValue ((n.adsr.cancelScheduledValues now).value now) now])
        ++ [AutomationEvent.linearRamp n.maxGain (now + n.attack)])
        ++ [AutomationEvent.linearRamp (n.maxGain * n.sustain) (now + n.attack + n.decay)] := by
    refine insertEvent_append _ _ ?_
    intro x hx
    rcases List.mem_append.mp hx with h | h
    · rcases List.mem_append.mp h with h2 | h2
      · exact le_trans (le_of_lt (time_lt_of_mem_filter h2)) hnow2
      · rcases List.mem_singleton.mp h2 with rfl
        exact hnow2
    · rcases List.mem_singleton.mp h with rfl
      exact hstep
  show insertEvent (insertEvent (n.resetEnvelopes now).adsr.events
        (AutomationEvent.linearRamp n.maxGain (now + n.attack)))
      (AutomationEvent.linearRamp (n.maxGain * n.sustain) (now + n.attack + n.decay)) = _
  rw [e1, e2, e3]
  simp [List.append_assoc]

theorem start_lpFilter_events (n : GenSynthNote) (now : ℚ)
    (ha : 0 ≤ n.attack) (hd : 0 ≤ n.decay) :
    (n.start now).lpFilter.events =
      (n.lpFilter.events.filter fun e => decide (e.time < now))
        ++ [AutomationEvent.setValue ((n.lpFilter.cancelScheduledValues now).value now) now,
            AutomationEvent.linearRamp (n.freq * 2) (now + n.attack + n.decay)] := by
  have hnow2 : now ≤ now + n.attack + n.decay := by
    have h := add_nonneg ha hd
    calc now ≤ now + (n.attack + n.decay) := le_add_of_nonneg_right h
      _ = now + n.attack + n.decay := by ring
  have e1 := resetEnvelopes_lpFilter_events n now
  have e2 : insertEvent ((n.lpFilter.events.filter fun e => decide (e.time < now))
        ++ [AutomationEvent.setValue ((n.lpFilter.cancelScheduledValues now).value now) now])
        (AutomationEvent.linearRamp (n.freq * 2) (now + n.attack + n.decay)) =
      ((n.lpFilter.events.filter fun e => decide (e.time < now))
        ++ [AutomationEvent.setValue ((n.lpFilter.cancelScheduledValues now).value now) now])
        ++ [AutomationEvent.linearRamp (n.freq * 2) (now + n.attack + n.decay)] := by
    refine insertEvent_append _ _ ?_
    intro x hx
    rcases List.mem_append.mp hx with h | h
    · exact le_trans (le_of_lt (time_lt_of_mem_filter h)) hnow2
    · rcases List.mem_singleton.mp h with rfl
      exact hnow2
  show insertEvent (n.resetEnvelopes now).lpFilter.events
      (AutomationEvent.linearRamp (n.freq * 2) (now + n.attack + n.decay)) = _
  rw [e1, e2]
  simp [List.append_assoc]

theorem stop_adsr_events (n : GenSynthNote) (now : ℚ) (hr : 0 ≤ n.release) :
    (n.stop now).adsr.events =
      (n.adsr.events.filter fun e => decide (e.time < now))
        ++ [AutomationEvent.setValue ((n.adsr.cancelScheduledValues now).value now) now,
            AutomationEvent.linearRamp 0 (now + n.release)] := by
  have hnow1 : now ≤ now + n.release := le_add_of_nonneg_right hr
  have e1 := resetEnvelopes_adsr_events n now
  have e2 : insertEvent ((n.adsr.events.filter fun e => decide (e.time < now))
        ++ [AutomationEvent.setValue ((n.adsr.cancelScheduledValues now).value now) now])
        (AutomationEvent.linearRamp 0 (now + n.release)) =
      ((n.adsr.events.filter fun e => decide (e.time < now))
        ++ [AutomationEvent.setValue ((n.adsr.cancelScheduledValues now).value now) now])
        ++ [AutomationEvent.linearRamp 0 (now + n.release)] := by
    refine insertEvent_append _ _ ?_
    intro x hx
    rcases List.mem_append.mp hx with h | h
    · exact le_trans (le_of_lt (time_lt_of_mem_filter h)) hnow1
    · rcases List.mem_singleton.mp h with rfl
      exact hnow1
  show insertEvent (n.resetEnvelopes now).adsr.events
      (AutomationEvent.linearRamp 0 (now + n.release)) = _
  rw [e1, e2]
  simp [List.append_assoc]

/-- Value of the amplitude envelope after start(), at or after the trigger
instant, reduced to the two scheduled ramp legs evaluated from the anchored
value. -/
theorem start_adsr_value (n : GenSynthNote) (now tau : ℚ)
    (ha : 0 ≤ n.attack) (hd : 0 ≤ n.decay) (htau : now ≤ tau) :
    (n.start now).adsr.value tau =
      computedValue ((n.adsr.cancelScheduledValues now).value now) now
        [AutomationEvent.linearRamp n.maxGain (now + n.attack),
         AutomationEvent.linearRamp (n.maxGain * n.sustain) (now + n.attack + n.decay)] tau := by
  show computedValue (n.start now).adsr.initial 0 (n.start now).adsr.events tau = _
  rw [start_adsr_events n now ha hd]
  exact computedValue_append _ _ _ _ _ _ _
    (fun x hx => le_trans (le_of_lt (time_lt_of_mem_filter hx)) htau) htau

theorem start_lpFilter_value (n : GenSynthNote) (now tau : ℚ)
    (ha : 0 ≤ n.attack) (hd : 0 ≤ n.decay) (htau : now ≤ tau) :
    (n.start now).lpFilter.value tau =
      computedValue ((n.lpFilter.cancelScheduledValues now).value now) now
        [AutomationEvent.linearRamp (n.freq * 2) (now + n.attack + n.decay)] tau := by
  show computedValue (n.start now).lpFilter.initial 0 (n.start now).lpFilter.events tau = _
  rw [start_lpFilter_events n now ha hd]
  exact computedValue_append _ _ _ _ _ _ _
    (fun x hx => le_trans (le_of_lt (time_lt_of_mem_filter hx)) htau) htau

theorem stop_adsr_value (n : GenSynthNote) (now tau : ℚ)
    (hr : 0 ≤ n.release) (htau : now ≤ tau) :
    (n.stop now).adsr.value tau =
      computedValue ((n.adsr.cancelScheduledValues now).value now) now
        [AutomationEvent.linearRamp 0 (now + n.release)] tau := by
  show computedValue (n.stop now).adsr.initial 0 (n.stop now).adsr.events tau = _
  rw [stop_adsr_events n now hr]
  exact computedValue_append _ _ _ _ _ _ _
    (fun x hx => le_trans (le_of_lt (time_lt_of_mem_filter hx)) htau) htau

/-! Claim theorems. -/

/-- C10: a freshly constructed voice is silent until start() is called: the
amplitude gain is initialized to exactly 0 at construction (and its computed
value is 0 at every instant), and the peak amplitude ceiling maxGain is the
fixed constant 0.25 for every voice, independent of all constructor
arguments and never modified by resetEnvelopes, start or stop. -/
theorem construction_silent_fixed_peak :
    (∀ f a d s r : ℚ,
      (mkNote f a d s r).adsr.initial = 0 ∧
      (∀ tau : ℚ, (mkNote f a d s r).adsr.value tau = 0) ∧
      (mkNote f a d s r).maxGain = 1 / 4) ∧
    (∀ (v : GenSynthNote) (t : ℚ),
      (v.resetEnvelopes t).maxGain = v.maxGain ∧
      (v.start t).maxGain = v.maxGain ∧
      (v.stop t).maxGain = v.maxGain) :=
  ⟨fun _ _ _ _ _ => ⟨rfl, fun _ => rfl, rfl⟩, fun _ _ => ⟨rfl, rfl, rfl⟩⟩

/-- C5: each voice snapshots the envelope configuration by value at creation
and the snapshot is immutable afterwards: the slider handlers mutate only the
shared globals and leave every already-created voice untouched, the voice
built by playANote carries the current values of the four globals, and
neither start nor stop ever changes the four stored envelope fields. -/
theorem envelope_snapshot_immutable :
    ∀ (f2q : Int → ℚ) (s : LabState) (r x : ℚ),
      ((attTimeInput s x).voices = s.voices ∧ (decTimeInput s x).voices = s.voices ∧
       (susAmpInput s x).voices = s.voices ∧ (relTimeInput s x).voices = s.voices) ∧
      ((newNote f2q s r).attack = s.attack ∧ (newNote f2q s r).decay = s.decay ∧
       (newNote f2q s r).sustain = s.sustain ∧ (newNote f2q s r).release = s.release) ∧
      (∀ (v : GenSynthNote) (t : ℚ),
        ((v.start t).attack = v.attack ∧ (v.start t).decay = v.decay ∧
         (v.start t).sustain = v.sustain ∧ (v.start t).release = v.release) ∧
        ((v.stop t).attack = v.attack ∧ (v.stop t).decay = v.decay ∧
         (v.stop t).sustain = v.sustain ∧ (v.stop t).release = v.release)) :=
  fun _ _ _ _ =>
    ⟨⟨rfl, rfl, rfl, rfl⟩, ⟨rfl, rfl, rfl, rfl⟩,
      fun _ _ => ⟨⟨rfl, rfl, rfl, rfl⟩, ⟨rfl, rfl, rfl, rfl⟩⟩⟩

/-- C4 counterexample: stop() issued a second time does attempt a second
generator stop.  On a concrete voice stopped at time 0 and again at time 2,
two osc.stop commands have been issued and the scheduled stop instant has
been replaced (moved from 0 + release to 2 + release), so the second call is
neither suppressed nor a no-op. -/
theorem second_stop_reissued :
    (((mkNote 100 1 1 1 1).stop 0).stop 2).osc.stopCalls = 2 ∧
    (((mkNote 100 1 1 1 1).stop 0).stop 2).osc.stopTime ≠
      ((mkNote 100 1 1 1 1).stop 0).osc.stopTime := by
  constructor
  · rfl
  · norm_num [mkNote, GenSynthNote.stop, GenSynthNote.resetEnvelopes, OscillatorNode.stop]

/-- C4 amended: every stop() call, first or repeated, unconditionally issues
one more osc.stop command and replaces the scheduled generator-stop instant
with its own call instant plus release; the source has no guard against a
second stop and reports no DoubleShutdown condition. -/
theorem stop_unconditional_osc_stop :
    ∀ (v : GenSynthNote) (now : ℚ),
      (v.stop now).osc.stopCalls = v.osc.stopCalls + 1 ∧
      (v.stop now).osc.stopTime = some (now + v.release) :=
  fun _ _ => ⟨rfl, rfl⟩

/-- C1 counterexample: with attack = 1, decay = 0, sustain = 0, release = 1
(all within the claimed parameter ranges), the amplitude value at
now + attack after start() is not peakAmplitude: both ramp targets fall on
the same instant and the decay target, not the attack peak, is the computed
value there. -/
theorem start_decay_zero_peak_missed :
    ((mkNote 100 1 0 0 1).start 0).adsr.value (0 + 1) ≠
      (mkNote 100 1 0 0 1).maxGain := by
  norm_num [mkNote, GenSynthNote.start, GenSynthNote.resetEnvelopes,
    AudioParam.value, AudioParam.cancelScheduledValues, AudioParam.setValueAtTime,
    AudioParam.linearRampToValueAtTime, insertEvent, computedValue, rampValue,
    AutomationEvent.time, List.filter]

/-- C3 counterexample: anchoring does not preserve the instantaneous value at
every instant.  A voice started at 0 with attack 2 is mid-attack at time 1
with amplitude 1/8, but resetEnvelopes(1) first cancels the pending ramp
events (at or after time 1) and only then reads the current value, which has
snapped back to the pre-ramp value 0; the anchored value 0 differs from the
instantaneous value 1/8. -/
theorem anchor_mid_ramp_jump :
    (((mkNote 100 2 1 1 1).start 0).resetEnvelopes 1).adsr.value 1 ≠
      ((mkNote 100 2 1 1 1).start 0).adsr.value 1 := by
  norm_num [mkNote, GenSynthNote.start, GenSynthNote.resetEnvelopes,
    AudioParam.value, AudioParam.cancelScheduledValues, AudioParam.setValueAtTime,
    AudioParam.linearRampToValueAtTime, insertEvent, computedValue, rampValue,
    AutomationEvent.time, List.filter]

/-- C1 amended: for attack >= 0 and decay > 0 (when decay = 0 both ramp
targets fall on the same instant and the decay target wins, see the
counterexample), the amplitude automation scheduled by start() reaches
maxGain exactly at now + attack and maxGain * sustain exactly at
now + attack + decay, and each leg is a linear ramp chaining from the
previous leg's end value (the attack leg from the anchored value, the decay
leg from maxGain). -/
theorem start_amplitude_envelope (v : GenSynthNote) (now : ℚ)
    (ha : 0 ≤ v.attack) (hd : 0 < v.decay) (hs0 : 0 ≤ v.sustain) (hs1 : v.sustain ≤ 1) :
    (v.start now).adsr.value (now + v.attack) = v.maxGain ∧
    (v.start now).adsr.value (now + v.attack + v.decay) = v.maxGain * v.sustain ∧
    (∀ tau, now ≤ tau → tau < now + v.attack →
      (v.start now).adsr.value tau =
        (v.adsr.cancelScheduledValues now).value now +
          (v.maxGain - (v.adsr.cancelScheduledValues now).value now) * (tau - now)
            / v.attack) ∧
    (∀ tau, now + v.attack ≤ tau → tau < now + v.attack + v.decay →
      (v.start now).adsr.value tau =
        v.maxGain + (v.maxGain * v.sustain - v.maxGain) * (tau - (now + v.attack))
          / v.decay) := by
  refine ⟨?_, ?_, ?_, ?_⟩
  · rw [start_adsr_value v now _ ha hd.le (le_add_of_nonneg_right ha)]
    have h1 : ¬ now + v.attack < now + v.attack := lt_irrefl _
    have h2 : now + v.attack < now + v.attack + v.decay := by linarith
    simp only [computedValue, if_neg h1, if_pos h2, rampValue]
    simp
  · rw [start_adsr_value v now _ ha hd.le (by linarith : now ≤ now + v.attack + v.decay)]
    have h1 : ¬ now + v.attack + v.decay < now + v.attack := by linarith
    have h2 : ¬ now + v.attack + v.decay < now + v.attack + v.decay := lt_irrefl _
    simp only [computedValue, if_neg h1, if_neg h2]
  · intro tau h1 h2
    rw [start_adsr_value v now tau ha hd.le h1]
    have hlt : now < now + v.attack := lt_of_le_of_lt h1 h2
    simp only [computedValue, if_pos h2, rampValue, if_pos hlt]
    rw [add_sub_cancel_left]
  · intro tau h1 h2
    have h0 : now ≤ tau := le_trans (le_add_of_nonneg_right ha) h1
    rw [start_adsr_value v now tau ha hd.le h0]
    have hn1 : ¬ tau < now + v.attack := not_lt.mpr h1
    have hlt : now + v.attack < now + v.attack + v.decay := by linarith
    simp only [computedValue, if_neg hn1, if_pos h2, rampValue, if_pos hlt]
    rw [add_sub_cancel_left]

/-- C1 witness: the amended theorem evaluated on a concrete voice with
attack 1, decay 2, sustain 1, release 1, triggered at time 0. -/
theorem start_amplitude_envelope_witness :
    ((mkNote 100 1 2 1 1).start 0).adsr.value (0 + (mkNote 100 1 2 1 1).attack) =
      (mkNote 100 1 2 1 1).maxGain :=
  (start_amplitude_envelope (mkNote 100 1 2 1 1) 0
    (by decide) (by decide) (by decide) (by decide)).1

/-- C2: for any voice in any state (so in particular regardless of how many
times start() was called before and of the envelope stage), stop() at instant
now schedules the generator stop at exactly now + release, makes the
amplitude reach 0 exactly at now + release, ramps linearly from the anchored
value down to 0 in between, and the only ramp it leaves scheduled at or after
now is that single release ramp. -/
theorem stop_release_schedule (v : GenSynthNote) (now : ℚ) (hr : 0 ≤ v.release) :
    (v.stop now).osc.stopTime = some (now + v.release) ∧
    (v.stop now).adsr.value (now + v.release) = 0 ∧
    (∀ tau, now ≤ tau → tau < now + v.release →
      (v.stop now).adsr.value tau =
        (v.adsr.cancelScheduledValues now).value now +
          (0 - (v.adsr.cancelScheduledValues now).value now) * (tau - now)
            / v.release) ∧
    ((v.stop now).adsr.events.filter fun e => decide (now ≤ e.time) && e.isRamp) =
      [AutomationEvent.linearRamp 0 (now + v.release)] := by
  refine ⟨rfl, ?_, ?_, ?_⟩
  · rw [stop_adsr_value v now _ hr (le_add_of_nonneg_right hr)]
    simp only [computedValue, if_neg (lt_irrefl (now + v.release))]
  · intro tau h1 h2
    rw [stop_adsr_value v now tau hr h1]
    have hlt : now < now + v.release := lt_of_le_of_lt h1 h2
    simp only [computedValue, if_pos h2, rampValue, if_pos hlt]
    rw [add_sub_cancel_left]
  · rw [stop_adsr_events v now hr, List.filter_append]
    have h1 : (v.adsr.events.filter fun e => decide (e.time < now)).filter
        (fun e => decide (now ≤ e.time) && e.isRamp) = [] := by
      refine List.filter_eq_nil_iff.mpr ?_
      intro a ha2
      have hlt := time_lt_of_mem_filter ha2
      simp [not_le.mpr hlt]
    rw [h1, List.nil_append]
    have h2 : now ≤ now + v.release := le_add_of_nonneg_right hr
    simp [List.filter, AutomationEvent.isRamp, AutomationEvent.time, h2]

/-- C2 witness: the theorem evaluated on a concrete voice with release 1,
stopped at time 0: the generator stop is scheduled at 0 + release and the
amplitude is 0 there. -/
theorem stop_release_schedule_witness :
    ((mkNote 100 1 2 1 1).stop 0).osc.stopTime = some (0 + (mkNote 100 1 2 1 1).release) ∧
    ((mkNote 100 1 2 1 1).stop 0).adsr.value (0 + (mkNote 100 1 2 1 1).release) = 0 :=
  ⟨(stop_release_schedule (mkNote 100 1 2 1 1) 0 (by decide)).1,
   (stop_release_schedule (mkNote 100 1 2 1 1) 0 (by decide)).2.1⟩

/-- The anchored value resetEnvelopes pins on the amplitude param equals the
post-cancellation computed value at the anchor instant. -/
theorem reset_adsr_value_at (n : GenSynthNote) (t : ℚ) :
    (n.resetEnvelopes t).adsr.value t = (n.adsr.cancelScheduledValues t).value t := by
  show computedValue (n.resetEnvelopes t).adsr.initial 0 (n.resetEnvelopes t).adsr.events t = _
  rw [resetEnvelopes_adsr_events]
  exact computedValue_append _ [] _ _ _ _ _
    (fun x hx => (time_lt_of_mem_filter hx).le) (le_refl t)

/-- Same as reset_adsr_value_at, for the filter-cutoff param. -/
theorem reset_lpFilter_value_at (n : GenSynthNote) (t : ℚ) :
    (n.resetEnvelopes t).lpFilter.value t = (n.lpFilter.cancelScheduledValues t).value t := by
  show computedValue (n.resetEnvelopes t).lpFilter.initial 0 (n.resetEnvelopes t).lpFilter.events t = _
  rw [resetEnvelopes_lpFilter_events]
  exact computedValue_append _ [] _ _ _ _ _
    (fun x hx => (time_lt_of_mem_filter hx).le) (le_refl t)

/-- Filtering the amplitude events of a started voice to the instants
strictly before the trigger instant gives back the pre-trigger filtered
events: everything start() scheduled sits at or after the trigger instant. -/
theorem filter_start_adsr_lt (v : GenSynthNote) (t : ℚ)
    (ha : 0 ≤ v.attack) (hd : 0 ≤ v.decay) :
    ((v.start t).adsr.events.filter fun e => decide (e.time < t)) =
      v.adsr.events.filter fun e => decide (e.time < t) := by
  rw [start_adsr_events v t ha hd, List.filter_append]
  have h1 : ((v.adsr.events.filter fun e => decide (e.time < t)).filter
      fun e => decide (e.time < t)) = v.adsr.events.filter fun e => decide (e.time < t) := by
    refine List.filter_eq_self.mpr ?_
    intro a ha2
    have h := List.of_mem_filter ha2
    exact h
  have h2 : (([AutomationEvent.setValue ((v.adsr.cancelScheduledValues t).value t) t,
        AutomationEvent.linearRamp v.maxGain (t + v.attack),
        AutomationEvent.linearRamp (v.maxGain * v.sustain) (t + v.attack + v.decay)]).filter
      fun e => decide (e.time < t)) = [] := by
    refine List.filter_eq_nil_iff.mpr ?_
    intro a haa
    have h3 : ¬ t < t := lt_irrefl t
    have h4 : ¬ t + v.attack < t := not_lt.mpr (le_add_of_nonneg_right ha)
    have h5 : ¬ t + v.attack + v.decay < t := by
      refine not_lt.mpr ?_
      have h := add_nonneg ha hd
      calc t ≤ t + (v.attack + v.decay) := le_add_of_nonneg_right h
        _ = t + v.attack + v.decay := by ring
    simp only [List.mem_cons, List.not_mem_nil, or_false] at haa
    rcases haa with rfl | rfl | rfl <;> simp [AutomationEvent.time, h3, h4, h5]
  rw [h1, h2, List.append_nil]

/-- C3 amended: the anchoring routine pins each control stream at its
post-cancellation value at the anchor instant (the value computed from the
events strictly before that instant), not necessarily at its pre-cancel
instantaneous value — see the counterexample for a mid-ramp anchor that
jumps.  The instantaneous value is preserved whenever no automation event at
or after the anchor instant is pending, and the specific trigger-then-
immediate-release-at-the-same-instant scenario is continuous: the amplitude
value at the shared instant is unchanged by the release() anchor. -/
theorem anchor_value_law (n : GenSynthNote) (t : ℚ) :
    ((n.resetEnvelopes t).adsr.value t = (n.adsr.cancelScheduledValues t).value t ∧
     (n.resetEnvelopes t).lpFilter.value t = (n.lpFilter.cancelScheduledValues t).value t) ∧
    ((∀ e ∈ n.adsr.events, e.time < t) →
      (n.resetEnvelopes t).adsr.value t = n.adsr.value t) ∧
    ((∀ e ∈ n.lpFilter.events, e.time < t) →
      (n.resetEnvelopes t).lpFilter.value t = n.lpFilter.value t) ∧
    (0 < n.attack → 0 ≤ n.decay → 0 < n.release →
      ((n.start t).stop t).adsr.value t = (n.start t).adsr.value t) := by
  refine ⟨⟨reset_adsr_value_at n t, reset_lpFilter_value_at n t⟩, ?_, ?_, ?_⟩
  · intro hpend
    have hfe : (n.adsr.events.filter fun e => decide (e.time < t)) = n.adsr.events :=
      List.filter_eq_self.mpr fun a ha2 => decide_eq_true (hpend a ha2)
    rw [reset_adsr_value_at n t]
    show computedValue n.adsr.initial 0 (n.adsr.events.filter fun e => decide (e.time < t)) t
      = n.adsr.value t
    rw [hfe]
    rfl
  · intro hpend
    have hfe : (n.lpFilter.events.filter fun e => decide (e.time < t)) = n.lpFilter.events :=
      List.filter_eq_self.mpr fun a ha2 => decide_eq_true (hpend a ha2)
    rw [reset_lpFilter_value_at n t]
    show computedValue n.lpFilter.initial 0 (n.lpFilter.events.filter fun e => decide (e.time < t)) t
      = n.lpFilter.value t
    rw [hfe]
    rfl
  · intro hA hD hR
    have hRHS : (n.start t).adsr.value t = (n.adsr.cancelScheduledValues t).value t := by
      rw [start_adsr_value n t t hA.le hD (le_refl t)]
      have h1 : t < t + n.attack := lt_add_of_pos_right t hA
      simp only [computedValue, if_pos h1, rampValue, if_pos h1]
      simp
    have hLHS : ((n.start t).stop t).adsr.value t =
        ((n.start t).adsr.cancelScheduledValues t).value t := by
      rw [stop_adsr_value (n.start t) t t hR.le (le_refl t)]
      have h1 : t < t + (n.start t).release := lt_add_of_pos_right t hR
      simp only [computedValue, if_pos h1, rampValue, if_pos h1]
      simp
    have hg0 : ((n.start t).adsr.cancelScheduledValues t).value t =
        (n.adsr.cancelScheduledValues t).value t := by
      show computedValue (n.start t).adsr.initial 0
        ((n.start t).adsr.events.filter fun e => decide (e.time < t)) t = _
      rw [filter_start_adsr_lt n t hA.le hD]
      rfl
    rw [hLHS, hg0, hRHS]

/-- C3 witness: on a concrete voice triggered and released at the same
instant 0, the amplitude value at 0 is unchanged by the release anchor. -/
theorem anchor_value_law_witness :
    (((mkNote 100 1 1 1 2).start 0).stop 0).adsr.value 0 =
      ((mkNote 100 1 1 1 2).start 0).adsr.value 0 :=
  (anchor_value_law (mkNote 100 1 1 1 2) 0).2.2.2 (by decide) (by decide) (by decide)

/-- C6: start() schedules exactly one filter-cutoff ramp at or after the
trigger instant: a linear ramp from the anchored cutoff value to the target
freq * 2, completing at now + attack + decay (the same instant as the decay
leg), sweeping linearly in between, and the cutoff stays at freq * 2 from
that instant on (it is not moved again by the start automation). -/
theorem filter_sweep_schedule (v : GenSynthNote) (now : ℚ)
    (ha : 0 ≤ v.attack) (hd : 0 ≤ v.decay) :
    ((v.start now).lpFilter.events.filter fun e => decide (now ≤ e.time) && e.isRamp) =
      [AutomationEvent.linearRamp (v.freq * 2) (now + v.attack + v.decay)] ∧
    (v.start now).lpFilter.value (now + v.attack + v.decay) = v.freq * 2 ∧
    (∀ tau, now + v.attack + v.decay ≤ tau →
      (v.start now).lpFilter.value tau = v.freq * 2) ∧
    (∀ tau, now ≤ tau → tau < now + v.attack + v.decay →
      (v.start now).lpFilter.value tau =
        (v.lpFilter.cancelScheduledValues now).value now +
          (v.freq * 2 - (v.lpFilter.cancelScheduledValues now).value now) * (tau - now)
            / (v.attack + v.decay)) := by
  have hnow2 : now ≤ now + v.attack + v.decay := by
    have h := add_nonneg ha hd
    calc now ≤ now + (v.attack + v.decay) := le_add_of_nonneg_right h
      _ = now + v.attack + v.decay := by ring
  refine ⟨?_, ?_, ?_, ?_⟩
  · rw [start_lpFilter_events v now ha hd, List.filter_append]
    have h1 : ((v.lpFilter.events.filter fun e => decide (e.time < now)).filter
        fun e => decide (now ≤ e.time) && e.isRamp) = [] := by
      refine List.filter_eq_nil_iff.mpr ?_
      intro a ha2
      have hlt := time_lt_of_mem_filter ha2
      simp [not_le.mpr hlt]
    rw [h1, List.nil_append]
    simp [List.filter, AutomationEvent.isRamp, AutomationEvent.time, hnow2]
  · rw [start_lpFilter_value v now _ ha hd hnow2]
    simp only [computedValue, if_neg (lt_irrefl (now + v.attack + v.decay))]
  · intro tau htau
    rw [start_lpFilter_value v now tau ha hd (le_trans hnow2 htau)]
    simp only [computedValue, if_neg (not_lt.mpr htau)]
  · intro tau h1 h2
    rw [start_lpFilter_value v now tau ha hd h1]
    simp only [computedValue, if_pos h2, rampValue, if_pos (lt_of_le_of_lt h1 h2)]
    have hsub : now + v.attack + v.decay - now = v.attack + v.decay := by ring
    rw [hsub]

/-- C6 witness: on a concrete voice with attack 1, decay 2, frequency 100,
triggered at 0, the cutoff reaches freq * 2 at 0 + attack + decay. -/
theorem filter_sweep_schedule_witness :
    ((mkNote 100 1 2 1 1).start 0).lpFilter.value
        (0 + (mkNote 100 1 2 1 1).attack + (mkNote 100 1 2 1 1).decay) =
      (mkNote 100 1 2 1 1).freq * 2 :=
  (filter_sweep_schedule (mkNote 100 1 2 1 1) 0 (by decide) (by decide)).2.1

/-- C7: the frequency law.  mtof maps pitch 69 to exactly 440 Hz and pitch 60
to approximately 261.63 Hz (bracketed between 261.6 and 261.7); the
constructor stores the computed frequency once (in freq and in the
oscillator) and no later operation (resetEnvelopes, start, stop) ever
changes the stored frequency. -/
theorem frequency_derivation :
    mtof 69 = 440 ∧
    ((1308 / 5 : ℝ) < mtof 60 ∧ mtof 60 < (2617 / 10 : ℝ)) ∧
    (∀ f a d s r : ℚ,
      (mkNote f a d s r).freq = f ∧ (mkNote f a d s r).osc.frequency = f) ∧
    (∀ (v : GenSynthNote) (t : ℚ),
      (v.resetEnvelopes t).freq = v.freq ∧ (v.start t).freq = v.freq ∧
      (v.stop t).freq = v.freq) := by
  refine ⟨?_, ?_, fun _ _ _ _ _ => ⟨rfl, rfl⟩, fun _ _ => ⟨rfl, rfl, rfl⟩⟩
  · have h : ((69 : ℝ) - 69) / 12 = 0 := by norm_num
    unfold mtof
    rw [h, Real.rpow_zero]
    norm_num
  · have hexp : ((60 : ℝ) - 69) / 12 = -((3 : ℝ) / 4) := by norm_num
    have hy4 : ((2 : ℝ) ^ ((3 : ℝ) / 4)) ^ (4 : ℕ) = 8 := by
      have h1 : ((2 : ℝ) ^ ((3 : ℝ) / 4)) ^ (4 : ℕ)
          = (2 : ℝ) ^ ((3 : ℝ) / 4 * ((4 : ℕ) : ℝ)) := by
        rw [← Real.rpow_natCast ((2 : ℝ) ^ ((3 : ℝ) / 4)) 4,
          ← Real.rpow_mul (by norm_num : (0 : ℝ) ≤ 2)]
      have h2 : (3 : ℝ) / 4 * ((4 : ℕ) : ℝ) = ((3 : ℕ) : ℝ) := by push_cast; ring
      rw [h1, h2, Real.rpow_natCast]
      norm_num
    have hypos : (0 : ℝ) < (2 : ℝ) ^ ((3 : ℝ) / 4) :=
      Real.rpow_pos_of_pos (by norm_num) _
    have hmtof : mtof 60 = 440 / (2 : ℝ) ^ ((3 : ℝ) / 4) := by
      unfold mtof
      rw [hexp, Real.rpow_neg (by norm_num : (0 : ℝ) ≤ 2)]
      ring
    constructor
    · have hc : (2 : ℝ) ^ ((3 : ℝ) / 4) < 440 / (1308 / 5 : ℝ) := by
        refine lt_of_pow_lt_pow_left₀ 4 (by norm_num) ?_
        rw [hy4]
        norm_num
      have h2 : (440 : ℝ) / (440 / (1308 / 5 : ℝ)) = 1308 / 5 := by norm_num
      rw [hmtof, ← h2]
      exact div_lt_div_of_pos_left (by norm_num) hypos hc
    · have hc : 440 / (2617 / 10 : ℝ) < (2 : ℝ) ^ ((3 : ℝ) / 4) := by
        refine lt_of_pow_lt_pow_left₀ 4 hypos.le ?_
        rw [hy4]
        norm_num
      have h2 : (440 : ℝ) / (440 / (2617 / 10 : ℝ)) = 2617 / 10 := by norm_num
      rw [hmtof, ← h2]
      exact div_lt_div_of_pos_left (by norm_num) (by norm_num) hc

/-- C8: for every random draw r in [0,1) the index floor(r * |pool|) computed
by playANote is within the bounds of the (non-empty) pitch pool, so the
selected pitch is always a member of the pool; moreover the draw is uniform
in the sense that the preimage of each index i is exactly the interval
[i/15, (i+1)/15) of equal length. -/
theorem pitch_pick_in_pool :
    ∀ r : ℚ, 0 ≤ r → r < 1 →
      pickIndex r < midiNotes.length ∧
      midiNotes.getD (pickIndex r) 0 ∈ midiNotes ∧
      (∀ i : Nat, i < midiNotes.length →
        (pickIndex r = i ↔
          (i : ℚ) / (midiNotes.length : ℚ) ≤ r ∧
            r < ((i : ℚ) + 1) / (midiNotes.length : ℚ))) := by
  intro r h0 h1
  have hlen : (midiNotes.length : ℚ) = 15 := by norm_num [midiNotes]
  have hnn : (0 : ℚ) ≤ r * 15 := mul_nonneg h0 (by norm_num)
  have hlt : r * 15 < 15 := by
    have h := mul_lt_mul_of_pos_right h1 (by norm_num : (0 : ℚ) < 15)
    linarith
  have hfl : 0 ≤ ⌊r * (midiNotes.length : ℚ)⌋ := by
    rw [hlen]
    exact Int.floor_nonneg.mpr hnn
  have hfu : ⌊r * (midiNotes.length : ℚ)⌋ < 15 := by
    rw [hlen]
    refine Int.floor_lt.mpr ?_
    push_cast
    linarith
  have hidx : pickIndex r < midiNotes.length := by
    rw [show midiNotes.length = 15 from rfl]
    unfold pickIndex
    omega
  refine ⟨hidx, ?_, ?_⟩
  · have hg : midiNotes.getD (pickIndex r) 0 = midiNotes[pickIndex r] :=
      List.getD_eq_getElem midiNotes 0 hidx
    rw [hg]
    exact List.getElem_mem hidx
  · intro i hi
    constructor
    · intro hpick
      have hfe : ⌊r * (midiNotes.length : ℚ)⌋ = (i : ℤ) := by
        unfold pickIndex at hpick
        omega
      rw [hlen] at hfe
      have hiff := Int.floor_eq_iff.mp hfe
      constructor
      · rw [hlen, div_le_iff₀ (by norm_num : (0 : ℚ) < 15)]
        exact_mod_cast hiff.1
      · rw [hlen, lt_div_iff₀ (by norm_num : (0 : ℚ) < 15)]
        have h := hiff.2
        push_cast at h ⊢
        linarith
    · rintro ⟨hl, hr2⟩
      have hl2 : (i : ℚ) ≤ r * 15 := by
        rw [hlen, div_le_iff₀ (by norm_num : (0 : ℚ) < 15)] at hl
        exact hl
      have hr3 : r * 15 < (i : ℚ) + 1 := by
        rw [hlen, lt_div_iff₀ (by norm_num : (0 : ℚ) < 15)] at hr2
        linarith
      have hfe : ⌊r * (midiNotes.length : ℚ)⌋ = (i : ℤ) := by
        rw [hlen]
        refine Int.floor_eq_iff.mpr ?_
        constructor <;> push_cast <;> linarith
      unfold pickIndex
      omega

/-- C8 witness: the theorem evaluated at the concrete draw r = 0. -/
theorem pitch_pick_in_pool_witness :
    pickIndex 0 < midiNotes.length ∧ midiNotes.getD (pickIndex 0) 0 ∈ midiNotes :=
  ⟨(pitch_pick_in_pool 0 (by decide) (by decide)).1,
   (pitch_pick_in_pool 0 (by decide) (by decide)).2.1⟩

/-- C9: under the timer-bookkeeping invariant (the live interval timers are
exactly the looper's), the start handler restarts cleanly: it is equivalent
to a stop followed by a start, it leaves exactly one live timer, the stop
handler leaves zero live timers and a null handle, both preserve the
invariant, and the stop handler leaves the in-flight voices (and hence their
scheduled release/finish automation) untouched. -/
theorem looper_timer_discipline (s : LabState) (h : labInv s) :
    labInv (startClick s) ∧ labInv (stopClick s) ∧
    (startClick s).timers.length = 1 ∧ (stopClick s).timers.length = 0 ∧
    startClick s = startClick (stopClick s) ∧
    (stopClick s).voices = s.voices ∧ (stopClick s).looper = none := by
  obtain ⟨att, dec, sus, rel, lo, tim, nid, vs⟩ := s
  cases lo with
  | none =>
    have h2 : tim = [] := h
    subst h2
    exact ⟨rfl, rfl, rfl, rfl, rfl, rfl, rfl⟩
  | some i =>
    have h2 : tim = [i] := h
    subst h2
    refine ⟨?_, ?_, ?_, ?_, ?_, rfl, rfl⟩ <;>
      simp [startClick, stopClick, labInv, List.erase_cons_head]

/-- C9 witness: the theorem evaluated at the initial page state (no looper
running). -/
theorem looper_timer_discipline_witness :
    labInv (startClick initState) ∧ (startClick initState).timers.length = 1 ∧
    (stopClick initState).timers.length = 0 :=
  ⟨(looper_timer_discipline initState rfl).1,
   (looper_timer_discipline initState rfl).2.2.1,
   (looper_timer_discipline initState rfl).2.2.2.1⟩
